import Mathlib

/-!
Verification of the simulation core of a WebGPU multi-state cellular
automaton (Day & Night rule B3678/S34678 with extra fixed and chaotic
states).  The embedded code comes from `src/shaders.wgsl` (compute shader
`computeMain`, stamp shader `stampMain`, trail shader `historyMain`) and
from the driver script (`handleStampClick`, `getGridPos`, the wheel
handler and the decay listener).

Modelling conventions:
* cell values are the `r32float` scalars stored in the textures, modelled
  exactly over `ℚ`; the shaders classify a stored scalar by the same
  open-interval banding as the source;
* the WGSL `%` operator on `i32` is the truncated remainder, modelled by
  `Int.tmod`; the mathematical (euclidean) modulus is Lean's `%` on `ℤ`;
* the pseudo-random hash `rand` (float `sin`/`fract` arithmetic) is
  modelled abstractly by a resolver function `R nx ny i j : Bool` standing
  for the test `rand(seed(nx, ny, time, i, j)) > 0.5`; quantifying over
  every resolver covers every `timeSeed`.
-/

namespace AICA

/-- The five cell states; stored in textures as the scalar codes 0..4
(0 Dead, 1 Alive, 2 Chaos, 3 AlwaysDead, 4 AlwaysAlive). -/
inductive CellState
  | dead
  | alive
  | chaos
  | alwaysDead
  | alwaysAlive
deriving DecidableEq

/-- Scalar code stored in the `r32float` texture for each state. -/
def CellState.scalar : CellState → ℚ
  | .dead => 0
  | .alive => 1
  | .chaos => 2
  | .alwaysDead => 3
  | .alwaysAlive => 4

/-- A grid of stored scalars, indexed by integer texel coordinates. -/
abbrev Grid := ℤ × ℤ → ℚ

/-- WGSL `%` on `i32` is the truncated remainder (sign of the dividend). -/
def wgslMod (a m : ℤ) : ℤ := Int.tmod a m

/-- Contribution of one neighbor texel to `activeNeighbors`
(`src/shaders.wgsl:81-94`): band (0.5, 1.5) (Alive) contributes 1, band
(1.5, 2.5) (Chaos) contributes 1 exactly when `rand(seed) > 0.5` (the
abstract resolver `R nx ny i j`), band (3.5, ∞) (AlwaysAlive) contributes
1, anything else contributes 0. -/
def neighborContrib (R : ℤ → ℤ → ℤ → ℤ → Bool) (s : ℚ) (nx ny i j : ℤ) : ℕ :=
  if 1/2 < s ∧ s < 3/2 then 1
  else if 3/2 < s ∧ s < 5/2 then (if R nx ny i j then 1 else 0)
  else if 7/2 < s then 1
  else 0

/-- The eight kernel offsets `(i, j)` scanned by the double loop of
`computeMain` (`src/shaders.wgsl:69-96`), in loop order, skipping (0,0). -/
def kernelOffsets : List (ℤ × ℤ) :=
  [(-1, -1), (-1, 0), (-1, 1), (0, -1), (0, 1), (1, -1), (1, 0), (1, 1)]

/-- The `activeNeighbors` accumulator of `computeMain`: the wrapped
neighbor coordinate is `nx = (x + i + width) % width` (WGSL truncated `%`)
and likewise for `ny` (`src/shaders.wgsl:75-77`). -/
def activeNeighbors (R : ℤ → ℤ → ℤ → ℤ → Bool) (g : Grid)
    (width height x y : ℤ) : ℕ :=
  (kernelOffsets.map (fun ij =>
    neighborContrib R
      (g (wgslMod (x + ij.1 + width) width, wgslMod (y + ij.2 + height) height))
      (wgslMod (x + ij.1 + width) width) (wgslMod (y + ij.2 + height) height)
      ij.1 ij.2)).sum

/-- The per-cell transition of the compute shader `computeMain`
(`src/shaders.wgsl:37-114`): the bands (1.5, 2.5), (2.5, 3.5) and
(3.5, ∞) return their canonical codes 2, 3, 4 early; otherwise the
Day & Night rule decides between 1 (Alive) and 0 (Dead) from
`activeNeighbors` (survival on 3, 4, 6, 7, 8; birth on 3, 6, 7, 8). -/
def computeMain (R : ℤ → ℤ → ℤ → ℤ → Bool) (g : Grid)
    (width height x y : ℤ) : ℚ :=
  let currentState := g (x, y)
  if 3/2 < currentState ∧ currentState < 5/2 then 2
  else if 5/2 < currentState ∧ currentState < 7/2 then 3
  else if 7/2 < currentState then 4
  else
    let n := activeNeighbors R g width height x y
    if 1/2 < currentState then
      if n = 3 ∨ n = 4 ∨ n = 6 ∨ n = 7 ∨ n = 8 then 1 else 0
    else
      if n = 3 ∨ n = 6 ∨ n = 7 ∨ n = 8 then 1 else 0

/-- Each neighbor contributes at most 1 to the count. -/
lemma neighborContrib_le_one (R : ℤ → ℤ → ℤ → ℤ → Bool) (s : ℚ)
    (nx ny i j : ℤ) : neighborContrib R s nx ny i j ≤ 1 := by
  unfold neighborContrib
  split_ifs <;> simp

/-- The neighbor count ranges over 0..8. -/
lemma activeNeighbors_le_eight (R : ℤ → ℤ → ℤ → ℤ → Bool) (g : Grid)
    (w h x y : ℤ) : activeNeighbors R g w h x y ≤ 8 := by
  unfold activeNeighbors
  refine le_trans (List.sum_le_card_nsmul _ 1 ?_) ?_
  · intro n hn
    simp only [List.mem_map] at hn
    obtain ⟨ij, _, rfl⟩ := hn
    exact neighborContrib_le_one _ _ _ _ _ _
  · simp [kernelOffsets]

/-- A concrete resolver (chaos neighbors never fire), used by witnesses. -/
def rNone : ℤ → ℤ → ℤ → ℤ → Bool := fun _ _ _ _ => false

/-- A concrete all-Alive grid, used by witnesses. -/
def gAllAlive : Grid := fun _ => 1

/-- A concrete all-Chaos grid, used by witnesses. -/
def gAllChaos : Grid := fun _ => 2

/-- C1: for an Alive cell the tick writes Alive iff `activeNeighbors` is in
{3,4,6,7,8} and Dead otherwise; for a Dead cell it writes Alive iff the
count is in {3,6,7,8} and Dead otherwise; and the count never exceeds 8,
so the rule is settled for all nine possible counts 0..8. -/
theorem computeMain_day_night_rule (R : ℤ → ℤ → ℤ → ℤ → Bool) (g : Grid)
    (w h x y : ℤ) :
    (g (x, y) = CellState.alive.scalar →
      computeMain R g w h x y =
        (if activeNeighbors R g w h x y ∈ ([3, 4, 6, 7, 8] : List ℕ)
         then CellState.alive.scalar else CellState.dead.scalar))
    ∧ (g (x, y) = CellState.dead.scalar →
      computeMain R g w h x y =
        (if activeNeighbors R g w h x y ∈ ([3, 6, 7, 8] : List ℕ)
         then CellState.alive.scalar else CellState.dead.scalar))
    ∧ activeNeighbors R g w h x y ≤ 8 := by
  refine ⟨fun hg => ?_, fun hg => ?_, activeNeighbors_le_eight R g w h x y⟩
  · norm_num [computeMain, hg, CellState.scalar, List.mem_cons]
  · norm_num [computeMain, hg, CellState.scalar, List.mem_cons]

/-- C1 witness: the center of an all-Alive 3×3 torus has count 8 and the
alive branch of the rule applies to it. -/
theorem computeMain_day_night_rule_witness :
    gAllAlive (1, 1) = CellState.alive.scalar ∧
    computeMain rNone gAllAlive 3 3 1 1 =
      (if activeNeighbors rNone gAllAlive 3 3 1 1 ∈ ([3, 4, 6, 7, 8] : List ℕ)
       then CellState.alive.scalar else CellState.dead.scalar) :=
  ⟨rfl, (computeMain_day_night_rule rNone gAllAlive 3 3 1 1).1 rfl⟩

/-- C2: the states Chaos, AlwaysDead and AlwaysAlive are fixed points of
the transition: whatever the surrounding neighborhood and the resolver
(hence the timeSeed), the tick writes the cell's current state back. -/
theorem computeMain_fixed_states (R : ℤ → ℤ → ℤ → ℤ → Bool) (g : Grid)
    (w h x y : ℤ) (s : CellState)
    (hs : s = .chaos ∨ s = .alwaysDead ∨ s = .alwaysAlive)
    (hg : g (x, y) = s.scalar) :
    computeMain R g w h x y = s.scalar := by
  rcases hs with rfl | rfl | rfl <;>
    norm_num [computeMain, hg, CellState.scalar]

/-- C2 witness: a Chaos cell of an all-Chaos 4×4 grid is left unchanged. -/
theorem computeMain_fixed_states_witness :
    gAllChaos (0, 0) = CellState.chaos.scalar ∧
    computeMain rNone gAllChaos 4 4 0 0 = CellState.chaos.scalar :=
  ⟨rfl, computeMain_fixed_states rNone gAllChaos 4 4 0 0 .chaos (Or.inl rfl) rfl⟩

/-- The truncated remainder is odd in its dividend. -/
lemma tmod_neg_dividend (a b : ℤ) : Int.tmod (-a) b = -Int.tmod a b := by
  rw [Int.tmod_def, Int.tmod_def, Int.neg_tdiv]
  ring

/-- The truncated remainder of any dividend by a positive modulus lies in
the open interval (-m, m). -/
lemma tmod_bounds (a m : ℤ) (hm : 0 < m) :
    -m < Int.tmod a m ∧ Int.tmod a m < m := by
  refine ⟨?_, Int.tmod_lt_of_pos a hm⟩
  have h1 : Int.tmod (-a) m < m := Int.tmod_lt_of_pos (-a) hm
  have h2 : Int.tmod (-a) m = -Int.tmod a m := tmod_neg_dividend a m
  omega

/-- The truncated remainder agrees with the euclidean one modulo `m`. -/
lemma tmod_emod (a m : ℤ) : Int.tmod a m % m = a % m := by
  conv_rhs => rw [← Int.tmod_add_tdiv a m]
  rw [Int.add_mul_emod_self_left]

/-- For a nonnegative dividend, the WGSL `%` already is the euclidean
modulus. -/
lemma wgslMod_of_nonneg (a m : ℤ) (ha : 0 ≤ a) (hm : 0 < m) :
    wgslMod a m = a % m :=
  Int.tmod_eq_emod ha (le_of_lt hm)

/-- Wrap arithmetic of `computeMain`: for an in-range coordinate `x` and a
kernel offset `i ≥ -1`, the shader's `(x + i + width) % width` equals the
euclidean `(x + i) % width`. -/
lemma wrap_eq (x i w : ℤ) (h0 : 0 ≤ x) (hxw : x < w) (hi : -1 ≤ i) :
    wgslMod (x + i + w) w = (x + i) % w := by
  rw [wgslMod_of_nonneg (x + i + w) w (by omega) (by omega), Int.add_emod_self]

/-- Per-state neighbor contribution, as the specification words it: 1 for
Alive and AlwaysAlive, 0 for Dead and AlwaysDead, and for Chaos 1 exactly
when the resolver fires at the neighbor coordinate and kernel offset. -/
def stateContrib (R : ℤ → ℤ → ℤ → ℤ → Bool) (st : CellState)
    (nx ny i j : ℤ) : ℕ :=
  match st with
  | .alive => 1
  | .alwaysAlive => 1
  | .chaos => if R nx ny i j then 1 else 0
  | .dead => 0
  | .alwaysDead => 0

/-- The specification-side neighbor sum: eight neighbors at euclidean
modulus indices, each contributing per `stateContrib`. -/
def specNeighborSum (R : ℤ → ℤ → ℤ → ℤ → Bool) (g : ℤ × ℤ → CellState)
    (w h x y : ℤ) : ℕ :=
  (kernelOffsets.map (fun ij =>
    stateContrib R (g ((x + ij.1) % w, (y + ij.2) % h))
      ((x + ij.1) % w) ((y + ij.2) % h) ij.1 ij.2)).sum

/-- The shader's banding of a stored canonical code agrees with the
per-state contribution table. -/
lemma neighborContrib_scalar (R : ℤ → ℤ → ℤ → ℤ → Bool) (st : CellState)
    (nx ny i j : ℤ) :
    neighborContrib R st.scalar nx ny i j = stateContrib R st nx ny i j := by
  cases st <;> norm_num [neighborContrib, stateContrib, CellState.scalar]

/-- One summand of `activeNeighbors` rewritten to the specification form. -/
lemma activeNeighbors_term_eq (R : ℤ → ℤ → ℤ → ℤ → Bool)
    (g : ℤ × ℤ → CellState) (w h x y i j : ℤ)
    (hx : 0 ≤ x) (hxw : x < w) (hy : 0 ≤ y) (hyh : y < h)
    (hi : -1 ≤ i) (hj : -1 ≤ j) :
    neighborContrib R
      ((fun c => (g c).scalar) (wgslMod (x + i + w) w, wgslMod (y + j + h) h))
      (wgslMod (x + i + w) w) (wgslMod (y + j + h) h) i j
      = stateContrib R (g ((x + i) % w, (y + j) % h))
          ((x + i) % w) ((y + j) % h) i j := by
  rw [wrap_eq x i w hx hxw hi, wrap_eq y j h hy hyh hj]
  exact neighborContrib_scalar R _ _ _ _ _

/-- C3: for an in-range cell, the shader's `activeNeighbors` is the sum
over the 8 toroidally wrapped neighbors (indices at the euclidean modulus,
so a cell at x = 0 counts the neighbor at x = width − 1 like an interior
cell) of 1 per Alive or AlwaysAlive neighbor, 0 per Dead or AlwaysDead
neighbor, and the resolver's verdict per Chaos neighbor. -/
theorem activeNeighbors_toroidal_sum (R : ℤ → ℤ → ℤ → ℤ → Bool)
    (g : ℤ × ℤ → CellState) (w h x y : ℤ)
    (hx : 0 ≤ x) (hxw : x < w) (hy : 0 ≤ y) (hyh : y < h) :
    activeNeighbors R (fun c => (g c).scalar) w h x y
      = specNeighborSum R g w h x y := by
  unfold activeNeighbors specNeighborSum
  refine congrArg List.sum (List.map_congr_left ?_)
  intro ij hij
  have hmem : ij = ((-1 : ℤ), (-1 : ℤ)) ∨ ij = (-1, 0) ∨ ij = (-1, 1) ∨
      ij = (0, -1) ∨ ij = (0, 1) ∨ ij = (1, -1) ∨ ij = (1, 0) ∨
      ij = (1, 1) := by
    simpa [kernelOffsets] using hij
  rcases hmem with rfl | rfl | rfl | rfl | rfl | rfl | rfl | rfl <;>
    exact activeNeighbors_term_eq R g w h x y _ _ hx hxw hy hyh
      (by norm_num) (by norm_num)

/-- A concrete mixed-state grid on the 3×3 torus, used by the C3 witness:
Chaos at (0, 0), AlwaysAlive at (2, 2), Alive elsewhere. -/
def gMixed : ℤ × ℤ → CellState := fun c =>
  if c = (0, 0) then .chaos else if c = (2, 2) then .alwaysAlive else .alive

/-- C3 witness: the toroidal-sum characterization instantiated at the
center of a mixed 3×3 torus. -/
theorem activeNeighbors_toroidal_sum_witness :
    ((0 : ℤ) ≤ 1 ∧ (1 : ℤ) < 3) ∧
    activeNeighbors rNone (fun c => (gMixed c).scalar) 3 3 1 1
      = specNeighborSum rNone gMixed 3 3 1 1 :=
  ⟨⟨by decide, by decide⟩,
    activeNeighbors_toroidal_sum rNone gMixed 3 3 1 1
      (by decide) (by decide) (by decide) (by decide)⟩

/-- The flip applied by `stampMain` to the stored scalar of a target cell
(`src/shaders.wgsl:153-166`): band (-0.5, 0.5) becomes 1, band (0.5, 1.5)
becomes 0, band (2.5, 3.5) becomes 4, band (3.5, 4.5) becomes 3, and any
other value (in particular the Chaos code 2) is kept. -/
def flip (s : ℚ) : ℚ :=
  if -(1/2) < s ∧ s < 1/2 then 1
  else if 1/2 < s ∧ s < 3/2 then 0
  else if 5/2 < s ∧ s < 7/2 then 4
  else if 7/2 < s ∧ s < 9/2 then 3
  else s

/-- The wrapped target cell of one pattern coordinate
(`src/shaders.wgsl:143-148`): `gridX = (clickPos.x + px) % width` with the
WGSL truncated `%`, then `select(gridX, gridX + width, gridX < 0)`. -/
def stampTarget (click : ℤ × ℤ) (w h : ℤ) (px py : ℕ) : ℤ × ℤ :=
  let gridX := wgslMod (click.1 + px) w
  let gridY := wgslMod (click.2 + py) h
  (if gridX < 0 then gridX + w else gridX,
   if gridY < 0 then gridY + h else gridY)

/-- The pattern bit read by `stampMain`:
`patternData[py * patternSize.x + px]` (`src/shaders.wgsl:150-151`). -/
def patBit (data : List ℕ) (pw : ℕ) (p : ℕ × ℕ) : ℕ :=
  data.getD (p.2 * pw + p.1) 0

/-- One `stampMain` invocation at pattern coordinate `p`: when the pattern
bit is 1 it reads the current state from the source texture `cellStateIn`
(the pre-stamp buffer `src`) and stores the flipped value into the
destination; otherwise it writes nothing. -/
def stampStep (src : Grid) (click : ℤ × ℤ) (w h : ℤ) (data : List ℕ)
    (pw : ℕ) (dst : Grid) (p : ℕ × ℕ) : Grid :=
  if patBit data pw p = 1 then
    Function.update dst (stampTarget click w h p.1 p.2)
      (flip (src (stampTarget click w h p.1 p.2)))
  else dst

/-- The dispatch domain of the stamp pass: `handleStampClick` dispatches
exactly the pattern area, so the invocations cover all pattern
coordinates `(px, py)` with `px < pw`, `py < ph`. -/
def dispatchDomain (pw ph : ℕ) : List (ℕ × ℕ) :=
  (List.range ph).flatMap (fun py => (List.range pw).map (fun px => (px, py)))

/-- The full stamp operation of `handleStampClick`: the whole source
texture is first copied into the destination (`copyTextureToTexture`),
then the `stampMain` invocations run over the pattern area.  Invocations
targeting the same cell all store the same value (the flip of the
pre-stamp `cellStateIn` value there), so the sequential fold model is
exact for the parallel dispatch. -/
def handleStampClick (g : Grid) (click : ℤ × ℤ) (pw ph : ℕ)
    (data : List ℕ) (w h : ℤ) : Grid :=
  (dispatchDomain pw ph).foldl (stampStep g click w h data pw) g

/-- Decidable test: is `c` the wrapped target of some set bit of the
pattern? -/
def isStampTargetB (click : ℤ × ℤ) (w h : ℤ) (data : List ℕ)
    (pw ph : ℕ) (c : ℤ × ℤ) : Bool :=
  (dispatchDomain pw ph).any (fun p =>
    decide (patBit data pw p = 1) &&
      decide (stampTarget click w h p.1 p.2 = c))

/-- Evaluation of the stamp fold at one cell: the cell holds the flip of
its pre-stamp value when some set bit targets it, and its pre-stamp value
otherwise. -/
lemma stampFold_apply (src : Grid) (click : ℤ × ℤ) (w h : ℤ)
    (data : List ℕ) (pw : ℕ) (L : List (ℕ × ℕ)) (dst : Grid) (c : ℤ × ℤ) :
    (L.foldl (stampStep src click w h data pw) dst) c
      = if (L.any fun p =>
              decide (patBit data pw p = 1) &&
                decide (stampTarget click w h p.1 p.2 = c)) = true
        then flip (src c) else dst c := by
  induction L generalizing dst with
  | nil => simp
  | cons p L ih =>
    rw [List.foldl_cons, ih]
    by_cases hany : (L.any fun p =>
        decide (patBit data pw p = 1) &&
          decide (stampTarget click w h p.1 p.2 = c)) = true
    · simp [hany, List.any_cons]
    · simp only [hany, if_false, List.any_cons, Bool.or_eq_true, or_false]
      unfold stampStep
      by_cases hbit : patBit data pw p = 1
      · by_cases htar : stampTarget click w h p.1 p.2 = c
        · simp [hbit, htar, Function.update]
        · simp [hbit, htar, Function.update]
          exact fun hcc => absurd hcc.symm htar
      · simp [hbit]

/-- Pointwise description of the whole stamp operation. -/
lemma handleStampClick_apply (g : Grid) (click : ℤ × ℤ) (pw ph : ℕ)
    (data : List ℕ) (w h : ℤ) (c : ℤ × ℤ) :
    handleStampClick g click pw ph data w h c
      = if isStampTargetB click w h data pw ph c = true
        then flip (g c) else g c :=
  stampFold_apply g click w h data pw (dispatchDomain pw ph) g c

/-- C4: a stamp leaves every cell that is not a wrapped target of a set
bit of the pattern exactly equal to its pre-stamp value — the operation
duplicates the whole buffer and patches only the pattern's cells. -/
theorem stamp_preserves_outside_targets (g : Grid) (click : ℤ × ℤ)
    (pw ph : ℕ) (data : List ℕ) (w h : ℤ) (c : ℤ × ℤ)
    (hc : isStampTargetB click w h data pw ph c = false) :
    handleStampClick g click pw ph data w h c = g c := by
  rw [handleStampClick_apply, hc]
  simp

/-- C4 witness: stamping a 2×2 block at the origin of a 4×4 grid leaves
the cell (3, 3) untouched. -/
theorem stamp_preserves_outside_targets_witness :
    isStampTargetB (0, 0) 4 4 [1, 1, 1, 1] 2 2 (3, 3) = false ∧
    handleStampClick gAllAlive (0, 0) 2 2 [1, 1, 1, 1] 4 4 (3, 3)
      = gAllAlive (3, 3) :=
  ⟨by decide,
    stamp_preserves_outside_targets gAllAlive (0, 0) 2 2 [1, 1, 1, 1] 4 4
      (3, 3) (by decide)⟩

/-- The flip table as the specification words it: Dead becomes Alive,
Alive becomes Dead, AlwaysDead becomes AlwaysAlive, AlwaysAlive becomes
AlwaysDead, and Chaos is unchanged. -/
def flipState : CellState → CellState
  | .dead => .alive
  | .alive => .dead
  | .alwaysDead => .alwaysAlive
  | .alwaysAlive => .alwaysDead
  | .chaos => .chaos

/-- The shader's banded flip of a canonical code realizes the flip
table. -/
lemma flip_scalar (st : CellState) : flip st.scalar = (flipState st).scalar := by
  cases st <;> norm_num [flip, flipState, CellState.scalar]

/-- The flip of a canonical code is involutive. -/
lemma flip_flip_scalar (st : CellState) : flip (flip st.scalar) = st.scalar := by
  cases st <;> norm_num [flip, CellState.scalar]

/-- Every in-range pattern coordinate is dispatched. -/
lemma mem_dispatchDomain (pw ph px py : ℕ) (hpx : px < pw) (hpy : py < ph) :
    (px, py) ∈ dispatchDomain pw ph := by
  unfold dispatchDomain
  simp only [List.mem_flatMap, List.mem_map, List.mem_range]
  exact ⟨py, hpy, px, hpx, rfl⟩

/-- C5: at the wrapped target of every set bit of the pattern, the stamp
replaces the cell's current state by its image under the flip table
(Dead↔Alive, AlwaysDead↔AlwaysAlive, Chaos unchanged). -/
theorem stamp_flips_set_bits (g : ℤ × ℤ → CellState) (click : ℤ × ℤ)
    (pw ph : ℕ) (data : List ℕ) (w h : ℤ) (px py : ℕ)
    (hpx : px < pw) (hpy : py < ph)
    (hbit : data.getD (py * pw + px) 0 = 1) :
    handleStampClick (fun c => (g c).scalar) click pw ph data w h
        (stampTarget click w h px py)
      = (flipState (g (stampTarget click w h px py))).scalar := by
  rw [handleStampClick_apply]
  have htar : isStampTargetB click w h data pw ph
      (stampTarget click w h px py) = true := by
    unfold isStampTargetB
    rw [List.any_eq_true]
    have hbit2 : patBit data pw (px, py) = 1 := hbit
    exact ⟨(px, py), mem_dispatchDomain pw ph px py hpx hpy,
      by simp [hbit2]⟩
  rw [htar]
  simp [flip_scalar]

/-- A concrete all-Dead state grid, used by witnesses. -/
def gDead : ℤ × ℤ → CellState := fun _ => .dead

/-- C5 witness: the set bit (0, 0) of a 2×2 block stamped at the origin
flips the Dead cell there to Alive. -/
theorem stamp_flips_set_bits_witness :
    ((0 : ℕ) < 2 ∧ (0 : ℕ) < 2 ∧ ([1, 1, 1, 1] : List ℕ).getD 0 0 = 1) ∧
    handleStampClick (fun c => (gDead c).scalar) (0, 0) 2 2 [1, 1, 1, 1] 4 4
        (stampTarget (0, 0) 4 4 0 0)
      = (flipState (gDead (stampTarget (0, 0) 4 4 0 0))).scalar :=
  ⟨⟨by decide, by decide, by decide⟩,
    stamp_flips_set_bits gDead (0, 0) 2 2 [1, 1, 1, 1] 4 4 0 0
      (by decide) (by decide) (by decide)⟩

/-- The WGSL truncated remainder followed by the conditional dimension add
is the euclidean modulus, for a positive modulus. -/
lemma wgslMod_select_eq_emod (a m : ℤ) (hm : 0 < m) :
    (if wgslMod a m < 0 then wgslMod a m + m else wgslMod a m) = a % m := by
  have key : Int.tmod a m % m = a % m := tmod_emod a m
  obtain ⟨hb1, hb2⟩ := tmod_bounds a m hm
  unfold wgslMod
  split
  · rw [← key, ← Int.add_emod_self]
    exact (Int.emod_eq_of_lt (by omega) (by omega)).symm
  · rw [← key]
    exact (Int.emod_eq_of_lt (by omega) (by omega)).symm

/-- C6: for every integer anchor, including negative coordinates, the
stamp target is the mathematical (nonnegative) modulus of the anchor plus
the pattern coordinate, the negative truncated remainder being fixed up by
adding the dimension. -/
theorem stampTarget_wraps_negative (click : ℤ × ℤ) (w h : ℤ)
    (hw : 0 < w) (hh : 0 < h) (px py : ℕ) :
    stampTarget click w h px py
      = ((click.1 + px) % w, (click.2 + py) % h) := by
  unfold stampTarget
  rw [Prod.mk.injEq]
  exact ⟨wgslMod_select_eq_emod _ w hw, wgslMod_select_eq_emod _ h hh⟩

/-- C6 witness: anchor (-5, -3) with pattern offset (1, 1) on a 4×4 grid
lands on the euclidean modulus ((−4) mod 4, (−2) mod 4) = (0, 2). -/
theorem stampTarget_wraps_negative_witness :
    ((0 : ℤ) < 4 ∧ (0 : ℤ) < 4) ∧
    stampTarget (-5, -3) 4 4 1 1 = ((-5 + 1) % 4, (-3 + 1) % 4) :=
  ⟨⟨by decide, by decide⟩,
    stampTarget_wraps_negative (-5, -3) 4 4 (by decide) (by decide) 1 1⟩

/-- C10: stamping the same pattern twice at the same anchor restores every
cell: the flip table is its own inverse and Chaos cells are untouched.
The bound of the pattern dimensions by the grid dimensions (under which
distinct set bits have distinct wrapped targets) is as the claim states
it. -/
theorem stamp_involutive (g : ℤ × ℤ → CellState) (click : ℤ × ℤ)
    (pw ph : ℕ) (data : List ℕ) (w h : ℤ)
    (_hw : (pw : ℤ) ≤ w) (_hh : (ph : ℤ) ≤ h) (c : ℤ × ℤ) :
    handleStampClick
        (handleStampClick (fun c => (g c).scalar) click pw ph data w h)
        click pw ph data w h c
      = (g c).scalar := by
  rw [handleStampClick_apply, handleStampClick_apply]
  by_cases ht : isStampTargetB click w h data pw ph c = true
  · simp [ht, flip_flip_scalar]
  · simp [ht]

/-- C10 witness: a glider stamped twice at (1, 1) on a 4×4 grid of Dead
cells restores the cell (1, 1). -/
theorem stamp_involutive_witness :
    (((3 : ℕ) : ℤ) ≤ 4 ∧ ((3 : ℕ) : ℤ) ≤ 4) ∧
    handleStampClick
        (handleStampClick (fun c => (gDead c).scalar) (1, 1) 3 3
          [0, 1, 0, 0, 0, 1, 1, 1, 1] 4 4)
        (1, 1) 3 3 [0, 1, 0, 0, 0, 1, 1, 1, 1] 4 4 (1, 1)
      = (gDead (1, 1)).scalar :=
  ⟨⟨by decide, by decide⟩,
    stamp_involutive gDead (1, 1) 3 3 [0, 1, 0, 0, 0, 1, 1, 1, 1] 4 4
      (by decide) (by decide) (1, 1)⟩

/-- The per-cell trail update of the compute shader `historyMain`
(`src/shaders.wgsl:207-234`): `newHistory = oldHistory * decay`,
overridden to 1 when the post-tick state is in band (0.5, 1.5) (Alive) or
(3.5, ∞) (AlwaysAlive), and forced to 0 when `isActive < 0.5`. -/
def historyMain (decay isActive state oldHistory : ℚ) : ℚ :=
  let newHistory := oldHistory * decay
  let newHistory2 :=
    if 1/2 < state ∧ state < 3/2 then 1
    else if 7/2 < state then 1 else newHistory
  if isActive < 1/2 then 0 else newHistory2

/-- C7: a trail update yields 0 when trails are disabled, 1 when enabled
and the post-tick state is Alive or AlwaysAlive (newlyActive), and the old
trail times the decay otherwise; iterating it over k enabled ticks of an
inactive cell with decay 9/10 scales the initial trail by (9/10)^k. -/
theorem historyMain_trail_rule (st : CellState) (tr : ℚ) :
    (∀ (enabled : Bool) (d : ℚ),
      historyMain d (if enabled then 1 else 0) st.scalar tr
        = if enabled = false then 0
          else if st = .alive ∨ st = .alwaysAlive then 1 else tr * d)
    ∧ (∀ sts : List CellState,
        (∀ s ∈ sts, s ≠ CellState.alive ∧ s ≠ CellState.alwaysAlive) →
        sts.foldl (fun t s => historyMain (9/10) 1 s.scalar t) tr
          = tr * (9/10) ^ sts.length) := by
  constructor
  · intro enabled d
    cases enabled <;> cases st <;>
      norm_num [historyMain, CellState.scalar] <;> simp
  · intro sts
    induction sts generalizing tr with
    | nil => intro _; simp
    | cons s sts ih =>
      intro hsts
      have hs := hsts s (List.mem_cons_self s sts)
      have hstep : historyMain (9/10) 1 s.scalar tr = tr * (9/10) := by
        cases s <;> first
          | exact absurd rfl hs.1
          | exact absurd rfl hs.2
          | norm_num [historyMain, CellState.scalar]
      rw [List.foldl_cons, hstep,
        ih (tr * (9/10)) (fun x hx => hsts x (List.mem_cons_of_mem _ hx)),
        List.length_cons, pow_succ]
      ring

/-- C7 witness: a cell Dead then Chaos is inactive on both ticks; two
enabled ticks with decay 9/10 scale its trail 5 by (9/10)^2. -/
theorem historyMain_trail_rule_witness :
    (∀ s ∈ [CellState.dead, CellState.chaos],
      s ≠ CellState.alive ∧ s ≠ CellState.alwaysAlive) ∧
    ([CellState.dead, CellState.chaos].foldl
        (fun t s => historyMain (9/10) 1 s.scalar t) 5
      = 5 * (9/10) ^ (2 : ℕ)) :=
  ⟨by decide,
    (historyMain_trail_rule .dead 5).2 [.dead, .chaos] (by decide)⟩

/-- The pointer-to-grid mapping `getGridPos` of the driver script: with
the screen point already normalized to UV coordinates `(u, v)`, it takes
`world = (uv / zoom) - pan`, keeps the fractional part
`world - floor(world)`, and floors the product with the grid size. -/
def getGridPos (zoom panX panY u v : ℚ) (gridSize : ℤ) : ℤ × ℤ :=
  (⌊(u / zoom - panX - ⌊u / zoom - panX⌋) * (gridSize : ℚ)⌋,
   ⌊(v / zoom - panY - ⌊v / zoom - panY⌋) * (gridSize : ℚ)⌋)

/-- The pan update of the wheel handler:
`pan = (mouseUV / newZoom) - (mouseUV / zoom) + pan`. -/
def wheelPan (pan zoom newZoom mouseUV : ℚ) : ℚ :=
  mouseUV / newZoom - mouseUV / zoom + pan

/-- C8: updating the pan to `pivotUV/scale' − pivotUV/scale + pan` while
changing the scale to any new in-range value keeps `getGridPos` at the
pivot screen point unchanged. -/
theorem getGridPos_zoom_pivot_invariant (zoom panX panY u v : ℚ)
    (gridSize : ℤ) (newZoom : ℚ)
    (_h1 : 1/2 ≤ newZoom) (_h2 : newZoom ≤ 50) :
    getGridPos newZoom (wheelPan panX zoom newZoom u)
        (wheelPan panY zoom newZoom v) u v gridSize
      = getGridPos zoom panX panY u v gridSize := by
  have hu : u / newZoom - wheelPan panX zoom newZoom u = u / zoom - panX := by
    unfold wheelPan
    ring
  have hv : v / newZoom - wheelPan panY zoom newZoom v = v / zoom - panY := by
    unfold wheelPan
    ring
  unfold getGridPos
  rw [hu, hv]

/-- C8 witness: zooming from 1 to 2 about the pivot (1/3, 1/4) with the
compensating pan leaves the grid coordinate unchanged. -/
theorem getGridPos_zoom_pivot_invariant_witness :
    ((1/2 : ℚ) ≤ 2 ∧ (2 : ℚ) ≤ 50) ∧
    getGridPos 2 (wheelPan 0 1 2 (1/3)) (wheelPan 0 1 2 (1/4))
        (1/3) (1/4) 256
      = getGridPos 1 0 0 (1/3) (1/4) 256 :=
  ⟨⟨by norm_num, by norm_num⟩,
    getGridPos_zoom_pivot_invariant 1 0 0 (1/3) (1/4) 256 2
      (by norm_num) (by norm_num)⟩

/-- The decay listener of the driver script:
`decayValue = parseFloat(e.target.value)` followed by
`updateHistoryUniforms()` — the parsed input is stored directly, with no
clamping of any kind. -/
def setDecayValue (input : ℚ) : ℚ := input

/-- The zoom update of the wheel handler: `newZoom = zoom * 1.1` or
`zoom / 1.1` by wheel direction, and a new zoom outside [0.5, 50.0] is
rejected (the handler returns early, keeping the old zoom). -/
def wheelZoom (zoom deltaY : ℚ) : ℚ :=
  let newZoom := if deltaY < 0 then zoom * (11/10) else zoom / (11/10)
  if newZoom < 1/2 ∨ 50 < newZoom then zoom else newZoom

/-- C9 counterexample: the stored decay is not clamped to (0, 1) — the
input 2 is stored as 2, which is not below 1. -/
theorem setDecayValue_not_clamped :
    ¬ (0 < setDecayValue 2 ∧ setDecayValue 2 < 1) := by
  norm_num [setDecayValue]

/-- C9 amended: the decay listener stores the parsed input unchanged (no
clamping, so the stored decay is in (0, 1) only when the input already
is), while the zoom scale is kept within [0.5, 50.0] by the wheel
handler's rejection of out-of-range values. -/
theorem setDecayValue_id_wheelZoom_range :
    (∀ input : ℚ, setDecayValue input = input)
    ∧ (∀ zoom deltaY : ℚ, 1/2 ≤ zoom → zoom ≤ 50 →
        1/2 ≤ wheelZoom zoom deltaY ∧ wheelZoom zoom deltaY ≤ 50) := by
  refine ⟨fun _ => rfl, fun zoom deltaY h1 h2 => ?_⟩
  simp only [wheelZoom]
  split <;> split
  all_goals first
    | exact ⟨h1, h2⟩
    | (rename_i hguard; push_neg at hguard; exact hguard)

/-- C9 amended witness: the listener stores 3/4 as 3/4, and a zoom-in from
the in-range scale 1 stays in range. -/
theorem setDecayValue_id_wheelZoom_range_witness :
    (((1 : ℚ)/2 ≤ 1 ∧ (1 : ℚ) ≤ 50) ∧ setDecayValue (3/4) = 3/4) ∧
    (1/2 ≤ wheelZoom 1 (-1) ∧ wheelZoom 1 (-1) ≤ 50) :=
  ⟨⟨⟨by norm_num, by norm_num⟩, setDecayValue_id_wheelZoom_range.1 (3/4)⟩,
    setDecayValue_id_wheelZoom_range.2 1 (-1) (by norm_num) (by norm_num)⟩

end AICA
